import Mathlib

/-!
Verification of the matching-and-aggregation engine of the mcp-construe
repository (src/obsidian_utils.py and src/mcp-construe.py), via a shallow
embedding in Lean.

Strings are modelled as `List Char`.  YAML / Python values are modelled by the
inductive type `Val` (floats are omitted; no claim exercises them).  Python
dictionaries are modelled as association lists with unique keys understood,
looked up first-match.  `yaml.safe_load` is an external library and is a
parameter (`parse`) of the embedding; a parse that raises `YAMLError` is
modelled as returning `none`.  The filesystem seen by one scan is modelled by
a list of `FileEntry` in `rglob` traversal order; a read/decode failure
(`IOError`/`UnicodeDecodeError`) is modelled by `content = none`.
-/

/-- A YAML / Python value as produced by `yaml.safe_load`:
null, booleans, integers, strings, lists and string-keyed mappings. -/
inductive Val where
  | null : Val
  | bool : Bool → Val
  | int  : Int → Val
  | str  : List Char → Val
  | list : List Val → Val
  | map  : List (List Char × Val) → Val

/-- Python dictionaries with string keys, as association lists. -/
abbrev PyDict := List (List Char × Val)

mutual

/-- Python `==` on `Val`: `None == None`; booleans compare with integers
numerically (`True == 1`); strings structurally; lists elementwise;
dictionaries by equal size and key-wise equal values (insertion order
irrelevant). Values of different kinds (beyond the bool/int bridge) are
unequal. -/
def pyEq : Val → Val → Bool
  | .null, .null => true
  | .bool a, .bool b => a == b
  | .bool a, .int n => decide ((if a then (1 : Int) else 0) = n)
  | .int n, .bool a => decide (n = (if a then (1 : Int) else 0))
  | .int a, .int b => decide (a = b)
  | .str a, .str b => decide (a = b)
  | .list a, .list b => pyEqL a b
  | .map a, .map b => decide (a.length = b.length) && pyEqM a b
  | _, _ => false
termination_by x y => sizeOf x + sizeOf y

/-- Elementwise Python `==` on lists. -/
def pyEqL : List Val → List Val → Bool
  | [], [] => true
  | x :: xs, y :: ys => pyEq x y && pyEqL xs ys
  | _, _ => false
termination_by xs ys => sizeOf xs + sizeOf ys

/-- Every pair of the first dictionary has a key-equal, value-`pyEq` pair in
the second. -/
def pyEqM : PyDict → PyDict → Bool
  | [], _ => true
  | (k, v) :: rest, b => pyFindEq k v b && pyEqM rest b
termination_by a b => sizeOf a + sizeOf b

/-- Look up `k` in a dictionary and compare the stored value with `v`. -/
def pyFindEq : List Char → Val → PyDict → Bool
  | _, _, [] => false
  | k, v, (k2, v2) :: rest =>
    if k = k2 then pyEq v v2 else pyFindEq k v rest
termination_by _ v b => sizeOf v + sizeOf b

end

/-- Python truthiness of a value (`bool(v)`). -/
def pyTruthy : Val → Bool
  | .null => false
  | .bool b => b
  | .int n => decide (n ≠ 0)
  | .str s => !s.isEmpty
  | .list l => !l.isEmpty
  | .map m => !m.isEmpty

/-- `d.get(k)`: the value at `k`, or Python `None` when the key is absent. -/
def pyGet (m : PyDict) (k : List Char) : Val :=
  (List.lookup k m).getD .null

/-- `d.get(k, default)`: the value at `k`, or `default` when absent. -/
def pyGetD (m : PyDict) (k : List Char) (d : Val) : Val :=
  (List.lookup k m).getD d

/-- `x in l` for a Python list: membership via `==`. -/
def pyIn (x : Val) (l : List Val) : Bool :=
  l.any (pyEq x)

/-- The key `"tags"`. -/
def tagsKey : List Char := "tags".data

/-- Lines 92-97 of `matches_criteria`: normalize the metadata tag entry.
A string becomes a one-element list, a list is kept as-is, anything else
becomes the empty list. -/
def normalizeTags : Val → List Val
  | .str s => [.str s]
  | .list l => l
  | _ => []

/-- Lines 87-89 of `matches_criteria`: the property stage.  Every required
`(key, value)` pair must satisfy `frontmatter.get(key) == value`. -/
def propertyStage (frontmatter properties : PyDict) : Bool :=
  properties.all (fun kv => pyEq (pyGet frontmatter kv.1) kv.2)

/-- The normalized tag list of a metadata mapping:
`frontmatter.get('tags', [])` followed by the normalization. -/
def fileTags (frontmatter : PyDict) : List Val :=
  normalizeTags (pyGetD frontmatter tagsKey (.list []))

/-- Python `re` whitespace `\s` (the ASCII whitespace characters; the exotic
Unicode whitespace code points play no role in any claim). -/
def isPySpace (c : Char) : Bool :=
  c = ' ' || c = '\t' || c = '\n' || c = '\r' || c = '\x0b' || c = '\x0c'

/-- Length of the maximal whitespace run at the head of a string. -/
def wsRun : List Char → Nat
  | [] => 0
  | c :: cs => if isPySpace c then wsRun cs + 1 else 0

/-- Candidate lengths `j` (in greedy, descending order) for matching
`\s*` at position `p` of `s` such that the following character is a
newline: exactly the `j` below the maximal whitespace run at `p` with
`s[p+j] = '\n'`. -/
def nlCands (s : List Char) (p : Nat) : List Nat :=
  ((List.range (wsRun (s.drop p))).filter
    (fun j => decide (s[p + j]? = some '\n'))).reverse

/-- Match the tail `\n---\s*\n` of the frontmatter pattern at position `q`
of `s` (so `s[q]` is the newline that ends the header body), with the
greedy `\s*`; returns the end position of the whole match. -/
def closeAt (s : List Char) (q : Nat) : Option Nat :=
  if s[q]? = some '\n' ∧ s[q + 1]? = some '-' ∧ s[q + 2]? = some '-' ∧
      s[q + 3]? = some '-' then
    match nlCands s (q + 4) with
    | [] => none
    | k :: _ => some (q + 4 + k + 1)
  else none

/-- Lazy search (`(.*?)`) for the first closing delimiter at or after the
body start `o`; returns the body end `q` and the match end. -/
def findClose (s : List Char) (o : Nat) : Option (Nat × Nat) :=
  (List.range (s.length + 1 - o)).findSome?
    (fun b => (closeAt s (o + b)).map (fun e => (o + b, e)))

/-- `re.match(r'^---\s*\n(.*?)\n---\s*\n', content, re.DOTALL)`:
the anchored frontmatter pattern with Python backtracking semantics
(greedy `\s*`, lazy group).  Returns `(group(1), match.end())` on
success. -/
def reMatch (s : List Char) : Option (List Char × Nat) :=
  if s[0]? = some '-' ∧ s[1]? = some '-' ∧ s[2]? = some '-' then
    (nlCands s 3).findSome? (fun j =>
      (findClose s (3 + j + 1)).map (fun qe =>
        ((s.drop (3 + j + 1)).take (qe.1 - (3 + j + 1)), qe.2)))
  else none

/-- `extract_frontmatter` (src/obsidian_utils.py, lines 42-66), with
`yaml.safe_load` as the parameter `parse` (`none` models a raised
`YAMLError`, which the source catches).  No match or a parse error yields
`({}, content)`; otherwise the parsed value (replaced by `{}` when falsy,
from `yaml.safe_load(...) or {}`) together with `content[match.end():]`. -/
def extract_frontmatter (parse : List Char → Option Val)
    (content : List Char) : Val × List Char :=
  match reMatch content with
  | none => (.map [], content)
  | some (group1, endPos) =>
    match parse group1 with
    | none => (.map [], content)
    | some v => (if pyTruthy v then v else .map [], content.drop endPos)

/-- `matches_criteria` (src/obsidian_utils.py, lines 69-104): the property
stage, then — when the tag filter is non-empty — tag matching over the
normalized tag list, requiring all tags (`match_all_tags`) or any tag. -/
def matches_criteria (frontmatter properties : PyDict)
    (tags : List (List Char)) (match_all_tags : Bool) : Bool :=
  if propertyStage frontmatter properties then
    if !tags.isEmpty then
      let file_tags := fileTags frontmatter
      if match_all_tags then
        tags.all (fun t => pyIn (.str t) file_tags)
      else
        tags.any (fun t => pyIn (.str t) file_tags)
    else true
  else false

/-- The call `matches_criteria(frontmatter, ...)` as made by
`find_matching_files`, where `frontmatter` is whatever value
`extract_frontmatter` produced.  When that value is not a dictionary and a
`.get` call is reached (a non-empty property filter, or a non-empty tag
filter), Python raises `AttributeError`, modelled by `.error ()`; with both
filters empty no `.get` is reached and the call returns `True`. -/
def matchesCriteriaV (fm : Val) (properties : PyDict)
    (tags : List (List Char)) (match_all_tags : Bool) : Except Unit Bool :=
  match fm with
  | .map m => .ok (matches_criteria m properties tags match_all_tags)
  | _ =>
    if properties.isEmpty && tags.isEmpty then .ok true else .error ()

/-- One filesystem entry as yielded by `vault_path.rglob("*.md")`:
its path (as a string), whether it is a regular file, its content
(`none` models a read or decode failure raising `IOError` /
`UnicodeDecodeError`), and its stat modification time. -/
structure FileEntry where
  path : List Char
  isFile : Bool
  content : Option (List Char)
  mtime : Int

/-- The enumeration loop of `find_matching_files` (src/obsidian_utils.py,
lines 125-142) over the `rglob` order: skip non-files; on a read failure
record a warning with the path and continue; otherwise extract the
frontmatter and keep `(entry, content)` when the criteria match.  An
exception from `matches_criteria` (`.error`) aborts the whole scan.
Returns the warnings printed and the retained list (or the abort). -/
def scanFiles (parse : List Char → Option Val) (entries : List FileEntry)
    (properties : PyDict) (tags : List (List Char)) (match_all_tags : Bool) :
    List (List Char) × Except Unit (List (FileEntry × List Char)) :=
  match entries with
  | [] => ([], .ok [])
  | e :: rest =>
    if e.isFile then
      match e.content with
      | none =>
        let r := scanFiles parse rest properties tags match_all_tags
        (e.path :: r.1, r.2)
      | some content =>
        match matchesCriteriaV (extract_frontmatter parse content).1
            properties tags match_all_tags with
        | .error _ => ([], .error ())
        | .ok true =>
          let r := scanFiles parse rest properties tags match_all_tags
          (r.1, r.2.map (fun l => (e, content) :: l))
        | .ok false => scanFiles parse rest properties tags match_all_tags
    else scanFiles parse rest properties tags match_all_tags

/-- Insert into a list sorted ascending by `mtime`, after any entry with an
equal key — the insertion step of a stable ascending sort. -/
def insertMtime (x : FileEntry × List Char) :
    List (FileEntry × List Char) → List (FileEntry × List Char)
  | [] => [x]
  | y :: ys =>
    if x.1.mtime < y.1.mtime then x :: y :: ys else y :: insertMtime x ys

/-- `matching_files.sort(key=lambda x: x[0].stat().st_mtime)`: Python's
stable ascending sort by modification time (a stable sorted reordering is
unique, so any stable sort model has exactly list.sort's output). -/
def sortMtime (l : List (FileEntry × List Char)) :
    List (FileEntry × List Char) :=
  l.foldl (fun acc x => insertMtime x acc) []

/-- `find_matching_files` (src/obsidian_utils.py, lines 107-145): the scan
loop followed by the stable sort by modification time.  Returns the
warnings and either the sorted retained list or the abort. -/
def find_matching_files (parse : List Char → Option Val)
    (entries : List FileEntry) (properties : PyDict)
    (tags : List (List Char)) (match_all_tags : Bool) :
    List (List Char) × Except Unit (List (FileEntry × List Char)) :=
  let r := scanFiles parse entries properties tags match_all_tags
  (r.1, r.2.map sortMtime)

/-- The separator line `"=" * 80`. -/
def sepLine : List Char := List.replicate 80 '='

/-- The sentinel returned for an empty match list. -/
def noMatchMsg : List Char := "No matching files found.".data

/-- `concatenate_files` (src/obsidian_utils.py, lines 148-171): the sentinel
for an empty list; otherwise the loop appending, per file, the separator,
`str(file_path.resolve())` (resolution is the parameter `resolve`), the
separator again, the content and an empty part, joined with `"\n"`. -/
def concatenate_files (resolve : List Char → List Char)
    (files : List (FileEntry × List Char)) : List Char :=
  if files.isEmpty then noMatchMsg
  else
    List.intercalate ['\n']
      (files.foldl
        (fun parts fc =>
          parts ++ [sepLine, resolve fc.1.path, sepLine, fc.2, []]) [])

/-- The configured vault as seen by the entry surface after
`Path(config['vault_path']).expanduser().resolve()`: its printed path,
the results of `exists()` and `is_dir()`, the `rglob` enumeration, and the
per-file `resolve()` used by the aggregator. -/
structure Vault where
  pathStr : List Char
  vexists : Bool
  isDir : Bool
  entries : List FileEntry
  resolve : List Char → List Char

/-- `str(e)` of the exception aborting a scan, as interpolated by the entry
surface; its content is irrelevant to every claim. -/
def scanExcMsg : List Char := "str object has no attribute get".data

/-- The error string `f"Error fetching {context_type} context: {msg}"`. -/
def errFetch (context_type msg : List Char) : List Char :=
  "Error fetching ".data ++ context_type ++ " context: ".data ++ msg

/-- `fetch_context` (src/mcp-construe.py, lines 42-70).  `cfg` is the
outcome of `load_config()` plus vault-path resolution (`.error msg` models
an exception whose `str` is `msg`, e.g. a missing or malformed config
file); validation failures return `"Error: ..."` strings; otherwise the
scan with properties `{"context": context_type}` and no tags runs and its
result is aggregated, any exception being caught into the
`"Error fetching ..."` string. -/
def fetch_context (parse : List Char → Option Val)
    (cfg : Except (List Char) Vault) (context_type : List Char) : List Char :=
  match cfg with
  | .error msg => errFetch context_type msg
  | .ok v =>
    if !v.vexists then
      "Error: Vault path does not exist: ".data ++ v.pathStr
    else if !v.isDir then
      "Error: Vault path is not a directory: ".data ++ v.pathStr
    else
      match (find_matching_files parse v.entries
          [("context".data, .str context_type)] [] false).2 with
      | .error _ => errFetch context_type scanExcMsg
      | .ok res => concatenate_files v.resolve res

/-- The record returned by `get_vault_info` on an existing root. -/
structure VaultInfo where
  vault_path : List Char
  vexists : Bool
  is_directory : Bool
  markdown_files_count : Nat

/-- `get_vault_info` (src/obsidian_utils.py, lines 174-194): the structured
error record when the root does not exist, else the path, the existence and
directory flags, and `len(list(vault_path.rglob("*.md")))` — the length of
the same enumeration `find_matching_files` iterates, unfiltered. -/
def get_vault_info (v : Vault) : Except (List Char) VaultInfo :=
  if !v.vexists then .error "Vault path does not exist".data
  else .ok ⟨v.pathStr, v.vexists, v.isDir, v.entries.length⟩

/-- The tag stage of `matches_criteria` (lines 91-104) in isolation. -/
def tagStage (frontmatter : PyDict) (tags : List (List Char))
    (match_all_tags : Bool) : Bool :=
  if !tags.isEmpty then
    if match_all_tags then
      tags.all (fun t => pyIn (.str t) (fileTags frontmatter))
    else
      tags.any (fun t => pyIn (.str t) (fileTags frontmatter))
  else true

/-- Models `yaml.safe_load` on the single YAML document `hello`: a bare
scalar document parses to the corresponding string (PyYAML returns the
Python string `'hello'`, a truthy non-mapping value). -/
def yamlHello : List Char → Option Val :=
  fun s => if s = "hello".data then some (.str "hello".data) else none

/-- Whether a value is a mapping. -/
def isMapVal : Val → Bool
  | .map _ => true
  | _ => false

/-- The whitespace-tolerant header shape the regex actually recognizes:
three hyphens, optional whitespace, a newline, any body, a newline, three
hyphens, optional whitespace and a newline. -/
def HeaderShape (s : List Char) : Prop :=
  ∃ w1 body w2 rest,
    (∀ c ∈ w1, isPySpace c = true) ∧ (∀ c ∈ w2, isPySpace c = true) ∧
    s = '-' :: '-' :: '-' ::
      (w1 ++ '\n' ::
        (body ++ '\n' :: '-' :: '-' :: '-' :: (w2 ++ '\n' :: rest)))

/-- The whitespace-tolerant opening-delimiter shape. -/
def OpenShape (s : List Char) : Prop :=
  ∃ w1 rest, (∀ c ∈ w1, isPySpace c = true) ∧
    s = '-' :: '-' :: '-' :: (w1 ++ '\n' :: rest)

/-- The strict header shape asserted by the claim: the opening line exactly
`---` and the closing line exactly `---` followed by a newline. -/
def StrictHeaderShape (s : List Char) : Prop :=
  ∃ body rest, s = "---\n".data ++ body ++ "\n---\n".data ++ rest

/-! ## Helper lemmas about the Criteria Matcher -/

/-- A string value is Python-equal only to the identical string value. -/
lemma pyEq_str_iff (t : List Char) (v : Val) :
    pyEq (.str t) v = true ↔ v = .str t := by
  cases v <;> simp [pyEq, eq_comm]

/-- Python membership of a string in a value list is plain membership of the
string value. -/
lemma pyIn_str (t : List Char) (l : List Val) :
    pyIn (.str t) l = true ↔ Val.str t ∈ l := by
  simp [pyIn, List.any_eq_true, pyEq_str_iff]

/-- `matches_criteria` is the conjunction of its two stages. -/
lemma matches_criteria_eq (fm props : PyDict) (tags : List (List Char))
    (mat : Bool) :
    matches_criteria fm props tags mat =
      (propertyStage fm props && tagStage fm tags mat) := by
  unfold matches_criteria tagStage
  cases propertyStage fm props <;> simp

/-- Adding a required tag in match-all mode only strengthens the tag stage. -/
lemma tagStage_all_mono (fm : PyDict) (t : List Char)
    (tags : List (List Char)) (h : tagStage fm (t :: tags) true = true) :
    tagStage fm tags true = true := by
  cases tags <;> simp [tagStage, List.all_cons] at h ⊢ <;> tauto

/-- Adding a tag in any-tag mode only weakens a non-empty tag stage. -/
lemma tagStage_any_mono (fm : PyDict) (t : List Char)
    (tags : List (List Char)) (hne : tags ≠ [])
    (h : tagStage fm tags false = true) :
    tagStage fm (t :: tags) false = true := by
  cases tags with
  | nil => exact absurd rfl hne
  | cons t2 ts => simp [tagStage, List.any_cons] at h ⊢; tauto

/-! ## Claim C1 -/

/-- C1, counterexample.  The claim says the property stage succeeds only if
each filter key is present in the metadata; but for the filter
`{"k": None}` on the empty metadata mapping, `frontmatter.get("k")` is
`None`, which equals the required `None`, so the stage (and the whole
matcher) succeeds although the key is absent. -/
theorem claim1_counterexample :
    propertyStage [] [("k".data, Val.null)] = true ∧
    List.lookup "k".data ([] : PyDict) = none ∧
    matches_criteria [] [("k".data, Val.null)] [] false = true := by
  refine ⟨?_, rfl, ?_⟩ <;>
    simp [matches_criteria, propertyStage, pyGet, pyEq]

/-- C1, amended.  The property stage succeeds iff every `(key, value)` pair
of the filter satisfies: either the key is present with a Python-equal
value, or the key is absent and the required value is Python-equal to
`None` (the `dict.get` default).  The empty filter is satisfied by every
metadata mapping (the right side is vacuous). -/
theorem claim1_property_stage_amended :
    ∀ fm props : PyDict,
      propertyStage fm props = true ↔
        ∀ kv ∈ props,
          (∃ v, List.lookup kv.1 fm = some v ∧ pyEq v kv.2 = true) ∨
          (List.lookup kv.1 fm = none ∧ pyEq Val.null kv.2 = true) := by
  intro fm props
  rw [propertyStage, List.all_eq_true]
  constructor
  · intro h kv hkv
    have hp := h kv hkv
    simp only [] at hp
    cases hlk : List.lookup kv.1 fm with
    | none => exact Or.inr ⟨rfl, by simpa [pyGet, hlk] using hp⟩
    | some v => exact Or.inl ⟨v, rfl, by simpa [pyGet, hlk] using hp⟩
  · intro h kv hkv
    rcases h kv hkv with ⟨v, hlk, hv⟩ | ⟨hlk, hv⟩ <;> simp [pyGet, hlk, hv]

/-- C1, witness: the amended characterization applied to a concrete
one-pair filter satisfied by a concrete metadata mapping. -/
theorem claim1_witness :
    propertyStage [("a".data, Val.int 1)] [("a".data, Val.int 1)] = true :=
  (claim1_property_stage_amended [("a".data, Val.int 1)]
      [("a".data, Val.int 1)]).mpr (by
    intro kv hkv
    simp only [List.mem_singleton] at hkv
    subst hkv
    exact Or.inl ⟨Val.int 1, rfl, by simp [pyEq]⟩)

/-! ## Claim C4 -/

/-- C4.  With the property stage passed and a non-empty tag filter, the
matcher normalizes the metadata tag entry (string to one-element list,
list as-is, anything else — including a missing entry — to the empty
list) and succeeds iff every filter tag (match-all) or some filter tag
(any mode) is a member of the normalized list; a scalar string tag value
behaves exactly like the one-element list; an empty tag filter constrains
nothing. -/
theorem claim4_tag_matching :
    (∀ (fm props : PyDict) (tags : List (List Char)) (mat : Bool),
        propertyStage fm props = true → tags ≠ [] →
        (matches_criteria fm props tags mat = true ↔
          if mat then ∀ t ∈ tags, Val.str t ∈ fileTags fm
          else ∃ t ∈ tags, Val.str t ∈ fileTags fm)) ∧
    (∀ s, normalizeTags (.str s) = [.str s]) ∧
    (∀ l, normalizeTags (.list l) = l) ∧
    normalizeTags .null = [] ∧
    (∀ b, normalizeTags (.bool b) = []) ∧
    (∀ n, normalizeTags (.int n) = []) ∧
    (∀ m, normalizeTags (.map m) = []) ∧
    (∀ fm : PyDict, List.lookup tagsKey fm = none → fileTags fm = []) ∧
    (∀ (w : List Char) (rest : PyDict),
        fileTags ((tagsKey, .str w) :: rest) =
          fileTags ((tagsKey, .list [.str w]) :: rest)) ∧
    (∀ (fm props : PyDict) (mat : Bool),
        matches_criteria fm props [] mat = propertyStage fm props) := by
  refine ⟨?_, fun _ => rfl, fun _ => rfl, rfl, fun _ => rfl, fun _ => rfl,
    fun _ => rfl, ?_, ?_, ?_⟩
  · intro fm props tags mat hps hne
    obtain ⟨t, ts, rfl⟩ := List.exists_cons_of_ne_nil hne
    rw [matches_criteria_eq, hps, Bool.true_and]
    cases mat <;>
      simp [tagStage, List.all_eq_true, List.any_eq_true, pyIn_str]
  · intro fm h
    simp [fileTags, pyGetD, h, normalizeTags]
  · intro w rest
    simp [fileTags, pyGetD, List.lookup, normalizeTags]
  · intro fm props mat
    rw [matches_criteria_eq]
    simp [tagStage]

/-- C4, witness: a concrete metadata mapping whose `tags` entry is the list
`["work"]` matches the tag filter `["work"]` in any-tag mode. -/
theorem claim4_witness :
    matches_criteria [(tagsKey, Val.list [Val.str "work".data])] []
      ["work".data] false = true :=
  (claim4_tag_matching.1 [(tagsKey, Val.list [Val.str "work".data])] []
      ["work".data] false rfl (by simp)).mpr (by
    refine ⟨"work".data, by simp, ?_⟩
    simp [fileTags, pyGetD, List.lookup, normalizeTags])

/-! ## Claim C5 -/

/-- C5, counterexample.  In any-tag mode, removing the only tag of the
filter `["a"]` (leaving the empty filter) turns the matcher's result on
the empty metadata mapping from false to true, so removal is not
monotone at the empty-filter boundary. -/
theorem claim5_counterexample :
    matches_criteria [] [] ["a".data] false = false ∧
    matches_criteria [] [] [] false = true :=
  ⟨rfl, rfl⟩

/-- C5, amended monotonicity.  Adding a property pair can only turn true to
false; adding a required tag in match-all mode can only turn true to
false; and in any-tag mode removing a tag can only turn true to false as
long as the remaining filter stays non-empty. -/
theorem claim5_monotonic_amended :
    (∀ (fm : PyDict) (k : List Char) (v : Val) (props : PyDict)
        (tags : List (List Char)) (mat : Bool),
        matches_criteria fm ((k, v) :: props) tags mat = true →
        matches_criteria fm props tags mat = true) ∧
    (∀ (fm props : PyDict) (t : List Char) (tags : List (List Char)),
        matches_criteria fm props (t :: tags) true = true →
        matches_criteria fm props tags true = true) ∧
    (∀ (fm props : PyDict) (t : List Char) (tags : List (List Char)),
        tags ≠ [] →
        matches_criteria fm props tags false = true →
        matches_criteria fm props (t :: tags) false = true) := by
  refine ⟨?_, ?_, ?_⟩
  · intro fm k v props tags mat h
    rw [matches_criteria_eq] at h ⊢
    simp only [propertyStage, List.all_cons, Bool.and_eq_true] at h ⊢
    exact ⟨h.1.2, h.2⟩
  · intro fm props t tags h
    rw [matches_criteria_eq] at h ⊢
    simp only [Bool.and_eq_true] at h ⊢
    exact ⟨h.1, tagStage_all_mono fm t tags h.2⟩
  · intro fm props t tags hne h
    rw [matches_criteria_eq] at h ⊢
    simp only [Bool.and_eq_true] at h ⊢
    exact ⟨h.1, tagStage_any_mono fm t tags hne h.2⟩

/-- C5, witness: the first monotonicity direction applied at a concrete
metadata mapping and one-pair filter. -/
theorem claim5_witness :
    matches_criteria [("k".data, Val.null)] [] [] false = true :=
  claim5_monotonic_amended.1 [("k".data, Val.null)] "k".data Val.null [] []
    false (by simp [matches_criteria, propertyStage, pyGet, List.lookup, pyEq])

/-! ## Claim C2 -/

/-- C2, failing input.  On the document `---\nhello\n---\nrest` the header
interior parses to the scalar string `hello`, which is truthy, so
`yaml.safe_load(...) or {}` keeps it and `extract_frontmatter` returns a
non-mapping metadata value — contradicting its declared
`Tuple[Dict[str, Any], str]` return type and its docstring. -/
theorem claim2_failing_input :
    extract_frontmatter yamlHello "---\nhello\n---\nrest".data =
      (Val.str "hello".data, "rest".data) ∧
    isMapVal
      (extract_frontmatter yamlHello "---\nhello\n---\nrest".data).1 =
        false :=
  ⟨rfl, rfl⟩

/-! ## Claim C7 -/

/-- The aggregation loop, written as a fold, appends exactly the five parts
per file in input order. -/
lemma concat_parts_foldl (resolve : List Char → List Char)
    (files : List (FileEntry × List Char)) (parts : List (List Char)) :
    files.foldl
      (fun ps fc => ps ++ [sepLine, resolve fc.1.path, sepLine, fc.2, []])
      parts =
    parts ++ files.flatMap
      (fun fc => [sepLine, resolve fc.1.path, sepLine, fc.2, []]) := by
  induction files generalizing parts with
  | nil => simp
  | cons f fs ih => simp [ih]

/-- C7.  The aggregator returns the fixed sentinel on the empty list, and on
a non-empty list returns, for each entry in input order, the separator
line, the resolved path, the separator line, the content and a blank part,
all joined by single newlines — with no reordering or deduplication (the
output is literally the concatenation map over the input sequence). -/
theorem claim7_aggregator :
    ∀ (resolve : List Char → List Char)
      (files : List (FileEntry × List Char)),
      concatenate_files resolve [] = noMatchMsg ∧
      (files ≠ [] →
        concatenate_files resolve files =
          List.intercalate ['\n']
            (files.flatMap
              (fun fc => [sepLine, resolve fc.1.path, sepLine, fc.2, []]))) := by
  intro resolve files
  refine ⟨rfl, fun hne => ?_⟩
  have he : files.isEmpty = false := by
    cases files with
    | nil => exact absurd rfl hne
    | cons f fs => rfl
  rw [concatenate_files, he]
  simp [concat_parts_foldl]

/-- C7, witness: the aggregator applied to one concrete entry. -/
theorem claim7_witness :
    concatenate_files id [(⟨"p".data, true, some "c".data, 0⟩, "c".data)] =
      List.intercalate ['\n'] [sepLine, "p".data, sepLine, "c".data, []] := by
  have h := (claim7_aggregator id
    [(⟨"p".data, true, some "c".data, 0⟩, "c".data)]).2 (by simp)
  simpa using h

/-! ## Claim C10 -/

/-- C10.  The vault-info query returns the structured error record when the
root does not exist (it never raises — it is a total function of the
vault state), and otherwise a record whose count is the length of the
same `rglob` enumeration the scanner iterates, with no filtering. -/
theorem claim10_vault_info :
    ∀ v : Vault,
      (v.vexists = false →
        get_vault_info v = .error "Vault path does not exist".data) ∧
      (∀ i, get_vault_info v = .ok i →
        i.markdown_files_count = v.entries.length ∧
        i.vault_path = v.pathStr ∧ i.vexists = v.vexists ∧
        i.is_directory = v.isDir) := by
  intro v
  constructor
  · intro h; simp [get_vault_info, h]
  · intro i hi
    unfold get_vault_info at hi
    cases hv : v.vexists with
    | false => rw [hv] at hi; simp at hi
    | true =>
      rw [hv] at hi
      simp only [Bool.not_true, Bool.false_eq_true, if_false,
        Except.ok.injEq] at hi
      subst hi
      exact ⟨rfl, rfl, rfl, rfl⟩

/-- C10, witness: both branches at concrete vault states. -/
theorem claim10_witness :
    get_vault_info ⟨"/v".data, false, false, [], id⟩ =
      .error "Vault path does not exist".data ∧
    (VaultInfo.mk "/v".data true true 0).markdown_files_count =
      (Vault.mk "/v".data true true [] id).entries.length :=
  ⟨(claim10_vault_info ⟨"/v".data, false, false, [], id⟩).1 rfl,
   ((claim10_vault_info ⟨"/v".data, true, true, [], id⟩).2
      ⟨"/v".data, true, true, 0⟩ rfl).1⟩

/-! ## Claim C6 -/

/-- Membership in an `insertMtime` result. -/
lemma mem_insertMtime (x y : FileEntry × List Char)
    (l : List (FileEntry × List Char)) :
    y ∈ insertMtime x l ↔ y = x ∨ y ∈ l := by
  induction l with
  | nil => simp [insertMtime]
  | cons z zs ih =>
    by_cases h : x.1.mtime < z.1.mtime
    · simp [insertMtime, h]
    · simp [insertMtime, h, ih]
      tauto

/-- `insertMtime` preserves ascending `mtime` order. -/
lemma pairwise_insertMtime (x : FileEntry × List Char)
    (l : List (FileEntry × List Char))
    (h : l.Pairwise (fun a b => a.1.mtime ≤ b.1.mtime)) :
    (insertMtime x l).Pairwise (fun a b => a.1.mtime ≤ b.1.mtime) := by
  induction l with
  | nil => simp [insertMtime]
  | cons z zs ih =>
    rw [List.pairwise_cons] at h
    by_cases hx : x.1.mtime < z.1.mtime
    · simp only [insertMtime, if_pos hx]
      rw [List.pairwise_cons]
      refine ⟨?_, List.pairwise_cons.mpr h⟩
      intro b hb
      rcases List.mem_cons.mp hb with rfl | hb
      · exact le_of_lt hx
      · exact le_trans (le_of_lt hx) (h.1 b hb)
    · simp only [insertMtime, if_neg hx]
      rw [List.pairwise_cons]
      refine ⟨?_, ih h.2⟩
      intro b hb
      rcases (mem_insertMtime x b zs).mp hb with rfl | hb
      · exact le_of_not_lt hx
      · exact h.1 b hb

/-- The stable sort produces an ascending `mtime` order. -/
lemma pairwise_sortMtime (l : List (FileEntry × List Char)) :
    (sortMtime l).Pairwise (fun a b => a.1.mtime ≤ b.1.mtime) := by
  have key : ∀ (l acc : List (FileEntry × List Char)),
      acc.Pairwise (fun a b => a.1.mtime ≤ b.1.mtime) →
      (l.foldl (fun acc x => insertMtime x acc) acc).Pairwise
        (fun a b => a.1.mtime ≤ b.1.mtime) := by
    intro l
    induction l with
    | nil => intro acc h; simpa using h
    | cons x xs ih =>
      intro acc h
      exact ih (insertMtime x acc) (pairwise_insertMtime x acc h)
  exact key l [] List.Pairwise.nil

/-- C6.  A successful scan returns a list sorted ascending by the retained
files' modification times, and the result is a deterministic function of
the filesystem state: any two successful results of the same scan are
equal (in particular the order among equal timestamps is fixed). -/
theorem claim6_sorted_deterministic :
    ∀ (parse : List Char → Option Val) (entries : List FileEntry)
      (props : PyDict) (tags : List (List Char)) (mat : Bool)
      (res : List (FileEntry × List Char)),
      (find_matching_files parse entries props tags mat).2 = .ok res →
      res.Pairwise (fun a b => a.1.mtime ≤ b.1.mtime) ∧
      ∀ res2,
        (find_matching_files parse entries props tags mat).2 = .ok res2 →
        res2 = res := by
  intro parse entries props tags mat res h
  have hm : Except.map sortMtime
      (scanFiles parse entries props tags mat).2 = .ok res := h
  cases hs : (scanFiles parse entries props tags mat).2 with
  | error e => rw [hs] at hm; simp [Except.map] at hm
  | ok r0 =>
    rw [hs] at hm
    simp only [Except.map, Except.ok.injEq] at hm
    constructor
    · rw [← hm]; exact pairwise_sortMtime r0
    · intro res2 h2
      have hm2 : Except.map sortMtime
          (scanFiles parse entries props tags mat).2 = .ok res2 := h2
      rw [hs] at hm2
      simp only [Except.map, Except.ok.injEq] at hm2
      rw [← hm, ← hm2]

/-- C6, witness: a two-file vault scanned with empty filters; the returned
list is sorted by the files' modification times 3 and 5. -/
theorem claim6_witness :
    ([(⟨"b".data, true, some "y".data, 3⟩, "y".data),
      (⟨"a".data, true, some "x".data, 5⟩, "x".data)] :
        List (FileEntry × List Char)).Pairwise
      (fun a b => a.1.mtime ≤ b.1.mtime) :=
  (claim6_sorted_deterministic (fun _ => none)
    [⟨"a".data, true, some "x".data, 5⟩, ⟨"b".data, true, some "y".data, 3⟩]
    [] [] false _ rfl).1

/-! ## Claim C8 -/

/-- Scan step: a non-regular-file entry is skipped silently. -/
lemma scanFiles_cons_notfile (parse : List Char → Option Val) (e : FileEntry)
    (rest : List FileEntry) (props : PyDict) (tags : List (List Char))
    (mat : Bool) (hf : e.isFile = false) :
    scanFiles parse (e :: rest) props tags mat =
      scanFiles parse rest props tags mat := by
  rw [scanFiles]
  rw [hf]
  simp

/-- Scan step: a regular file whose read fails is recorded as a warning and
skipped. -/
lemma scanFiles_cons_badread (parse : List Char → Option Val) (e : FileEntry)
    (rest : List FileEntry) (props : PyDict) (tags : List (List Char))
    (mat : Bool) (hf : e.isFile = true) (hc : e.content = none) :
    scanFiles parse (e :: rest) props tags mat =
      (e.path :: (scanFiles parse rest props tags mat).1,
        (scanFiles parse rest props tags mat).2) := by
  rw [scanFiles]
  rw [hf, hc]
  simp

/-- Scan step: a readable file on which the criteria call raises aborts. -/
lemma scanFiles_cons_err (parse : List Char → Option Val) (e : FileEntry)
    (rest : List FileEntry) (props : PyDict) (tags : List (List Char))
    (mat : Bool) (c : List Char) (u : Unit) (hf : e.isFile = true)
    (hc : e.content = some c)
    (hm : matchesCriteriaV (extract_frontmatter parse c).1 props tags mat =
      .error u) :
    scanFiles parse (e :: rest) props tags mat = ([], .error ()) := by
  rw [scanFiles]
  rw [hf, hc]
  simp [hm]

/-- Scan step: a readable, matching file is retained. -/
lemma scanFiles_cons_keep (parse : List Char → Option Val) (e : FileEntry)
    (rest : List FileEntry) (props : PyDict) (tags : List (List Char))
    (mat : Bool) (c : List Char) (hf : e.isFile = true)
    (hc : e.content = some c)
    (hm : matchesCriteriaV (extract_frontmatter parse c).1 props tags mat =
      .ok true) :
    scanFiles parse (e :: rest) props tags mat =
      ((scanFiles parse rest props tags mat).1,
        (scanFiles parse rest props tags mat).2.map
          (fun l => (e, c) :: l)) := by
  rw [scanFiles]
  rw [hf, hc]
  simp [hm]

/-- Scan step: a readable, non-matching file is dropped silently. -/
lemma scanFiles_cons_skip (parse : List Char → Option Val) (e : FileEntry)
    (rest : List FileEntry) (props : PyDict) (tags : List (List Char))
    (mat : Bool) (c : List Char) (hf : e.isFile = true)
    (hc : e.content = some c)
    (hm : matchesCriteriaV (extract_frontmatter parse c).1 props tags mat =
      .ok false) :
    scanFiles parse (e :: rest) props tags mat =
      scanFiles parse rest props tags mat := by
  rw [scanFiles]
  rw [hf, hc]
  simp [hm]

/-- Removing a read-failing regular file from the enumeration does not
change the retained result (nor an abort). -/
lemma scanFiles_drop_bad (parse : List Char → Option Val)
    (bad : FileEntry) (pre post : List FileEntry) (props : PyDict)
    (tags : List (List Char)) (mat : Bool) (hf : bad.isFile = true)
    (hc : bad.content = none) :
    (scanFiles parse (pre ++ bad :: post) props tags mat).2 =
      (scanFiles parse (pre ++ post) props tags mat).2 := by
  induction pre with
  | nil =>
    rw [List.nil_append, List.nil_append,
      scanFiles_cons_badread parse bad post props tags mat hf hc]
  | cons e pre ih =>
    rw [List.cons_append, List.cons_append]
    cases hfe : e.isFile
    · rw [scanFiles_cons_notfile parse e (pre ++ bad :: post) props tags mat
          hfe,
        scanFiles_cons_notfile parse e (pre ++ post) props tags mat hfe]
      exact ih
    · cases hce : e.content with
      | none =>
        rw [scanFiles_cons_badread parse e (pre ++ bad :: post) props tags
            mat hfe hce,
          scanFiles_cons_badread parse e (pre ++ post) props tags mat hfe
            hce]
        exact ih
      | some c =>
        cases hm : matchesCriteriaV (extract_frontmatter parse c).1
            props tags mat with
        | error u =>
          rw [scanFiles_cons_err parse e (pre ++ bad :: post) props tags mat
              c u hfe hce hm,
            scanFiles_cons_err parse e (pre ++ post) props tags mat c u hfe
              hce hm]
        | ok b =>
          cases b
          · rw [scanFiles_cons_skip parse e (pre ++ bad :: post) props tags
                mat c hfe hce hm,
              scanFiles_cons_skip parse e (pre ++ post) props tags mat c hfe
                hce hm]
            exact ih
          · rw [scanFiles_cons_keep parse e (pre ++ bad :: post) props tags
                mat c hfe hce hm,
              scanFiles_cons_keep parse e (pre ++ post) props tags mat c hfe
                hce hm]
            show Except.map _ _ = Except.map _ _
            rw [ih]

/-- When the prefix of the enumeration scans without an abort, the warnings
of the whole scan are the prefix's warnings followed by the rest's. -/
lemma scanFiles_warn_append (parse : List Char → Option Val)
    (props : PyDict) (tags : List (List Char)) (mat : Bool) :
    ∀ (pre rest : List FileEntry) (r0 : List (FileEntry × List Char)),
      (scanFiles parse pre props tags mat).2 = .ok r0 →
      (scanFiles parse (pre ++ rest) props tags mat).1 =
        (scanFiles parse pre props tags mat).1 ++
          (scanFiles parse rest props tags mat).1 := by
  intro pre
  induction pre with
  | nil => intro rest r0 _; simp [scanFiles]
  | cons e pre ih =>
    intro rest r0 h
    rw [List.cons_append]
    cases hfe : e.isFile
    · rw [scanFiles_cons_notfile parse e pre props tags mat hfe] at h
      rw [scanFiles_cons_notfile parse e (pre ++ rest) props tags mat hfe,
        scanFiles_cons_notfile parse e pre props tags mat hfe]
      exact ih rest r0 h
    · cases hce : e.content with
      | none =>
        rw [scanFiles_cons_badread parse e pre props tags mat hfe hce] at h
        rw [scanFiles_cons_badread parse e (pre ++ rest) props tags mat hfe
            hce,
          scanFiles_cons_badread parse e pre props tags mat hfe hce]
        show e.path :: _ = e.path :: _ ++ _
        rw [List.cons_append, ih rest r0 h]
      | some c =>
        cases hm : matchesCriteriaV (extract_frontmatter parse c).1
            props tags mat with
        | error u =>
          rw [scanFiles_cons_err parse e pre props tags mat c u hfe hce
              hm] at h
          simp at h
        | ok b =>
          cases b
          · rw [scanFiles_cons_skip parse e pre props tags mat c hfe hce
                hm] at h
            rw [scanFiles_cons_skip parse e (pre ++ rest) props tags mat c
                hfe hce hm,
              scanFiles_cons_skip parse e pre props tags mat c hfe hce hm]
            exact ih rest r0 h
          · cases hok : (scanFiles parse pre props tags mat).2 with
            | error u =>
              rw [scanFiles_cons_keep parse e pre props tags mat c hfe hce
                  hm] at h
              have h2 : Except.map (fun l => (e, c) :: l)
                  (scanFiles parse pre props tags mat).2 = Except.ok r0 := h
              rw [hok] at h2
              simp [Except.map] at h2
            | ok r1 =>
              rw [scanFiles_cons_keep parse e (pre ++ rest) props tags mat c
                  hfe hce hm,
                scanFiles_cons_keep parse e pre props tags mat c hfe hce hm]
              exact ih rest r1 hok

/-- C8.  A read/decode failure on one regular candidate file records a
warning with that file's path and excludes the file, while the scan
continues: the scan of the vault with the unreadable file returns exactly
the result of scanning the same vault without it, and (whenever the
preceding files do not abort the scan) the failing path appears among the
recorded warnings. -/
theorem claim8_read_failure_tolerated :
    ∀ (parse : List Char → Option Val) (pre post : List FileEntry)
      (bad : FileEntry) (props : PyDict) (tags : List (List Char))
      (mat : Bool),
      bad.isFile = true → bad.content = none →
      (find_matching_files parse (pre ++ bad :: post) props tags mat).2 =
        (find_matching_files parse (pre ++ post) props tags mat).2 ∧
      (∀ r0, (scanFiles parse pre props tags mat).2 = .ok r0 →
        bad.path ∈
          (find_matching_files parse (pre ++ bad :: post) props tags
            mat).1) := by
  intro parse pre post bad props tags mat hf hc
  constructor
  · show Except.map sortMtime _ = Except.map sortMtime _
    rw [scanFiles_drop_bad parse bad pre post props tags mat hf hc]
  · intro r0 h
    show bad.path ∈ (scanFiles parse (pre ++ bad :: post) props tags mat).1
    rw [scanFiles_warn_append parse props tags mat pre (bad :: post) r0 h,
      scanFiles_cons_badread parse bad post props tags mat hf hc]
    simp

/-- C8, witness: a one-file vault whose only file is unreadable scans to the
same (empty) result as the empty vault, with the path warned. -/
theorem claim8_witness :
    (find_matching_files (fun _ => none)
        [FileEntry.mk "bad.md".data true none 7] [] [] false).2 =
      (find_matching_files (fun _ => none) [] [] [] false).2 ∧
    "bad.md".data ∈
      (find_matching_files (fun _ => none)
        [FileEntry.mk "bad.md".data true none 7] [] [] false).1 :=
  ⟨(claim8_read_failure_tolerated (fun _ => none) [] []
      ⟨"bad.md".data, true, none, 7⟩ [] [] false rfl rfl).1,
   (claim8_read_failure_tolerated (fun _ => none) [] []
      ⟨"bad.md".data, true, none, 7⟩ [] [] false rfl rfl).2 [] rfl⟩

/-! ## Claim C9 -/

/-- The exception branch's string starts with `Error` (with no colon). -/
lemma errFetch_split (ct msg : List Char) :
    errFetch ct msg =
      "Error".data ++ (" fetching ".data ++ ct ++ " context: ".data ++ msg) := by
  rw [errFetch,
    show "Error fetching ".data = "Error".data ++ " fetching ".data from rfl]
  simp [List.append_assoc]

/-- C9, amended.  `fetch_context` is total (no exception escapes): it either
returns the aggregate of a successful scan with property filter
`{"context": context_type}` and empty tag filter, or returns a string
beginning with `Error` — the vault-path validation failures yield
`"Error: ..."` strings, while a caught exception yields the
`"Error fetching <type> context: <message>"` string. -/
theorem claim9_fetch_context_amended :
    ∀ (parse : List Char → Option Val) (cfg : Except (List Char) Vault)
      (ct : List Char),
      (∃ v res, cfg = .ok v ∧ v.vexists = true ∧ v.isDir = true ∧
        (find_matching_files parse v.entries
          [("context".data, .str ct)] [] false).2 = .ok res ∧
        fetch_context parse cfg ct = concatenate_files v.resolve res) ∨
      (∃ tail, fetch_context parse cfg ct = "Error".data ++ tail) := by
  intro parse cfg ct
  cases cfg with
  | error msg =>
    exact Or.inr ⟨" fetching ".data ++ ct ++ " context: ".data ++ msg,
      errFetch_split ct msg⟩
  | ok v =>
    cases hve : v.vexists
    · refine Or.inr ⟨": Vault path does not exist: ".data ++ v.pathStr, ?_⟩
      simp only [fetch_context, hve, Bool.not_false, if_true]
      rw [← List.append_assoc]
      rfl
    · cases hdir : v.isDir
      · refine Or.inr
          ⟨": Vault path is not a directory: ".data ++ v.pathStr, ?_⟩
        simp only [fetch_context, hve, hdir, Bool.not_true, Bool.not_false,
          Bool.false_eq_true, if_false, if_true]
        rw [← List.append_assoc]
        rfl
      · cases hscan : (find_matching_files parse v.entries
            [("context".data, .str ct)] [] false).2 with
        | error u =>
          refine Or.inr ⟨" fetching ".data ++ ct ++ " context: ".data ++
            scanExcMsg, ?_⟩
          simp only [fetch_context, hve, hdir, Bool.not_true,
            Bool.false_eq_true, if_false, hscan]
          exact errFetch_split ct scanExcMsg
        | ok res =>
          refine Or.inl ⟨v, res, rfl, hve, hdir, hscan, ?_⟩
          simp only [fetch_context, hve, hdir, Bool.not_true,
            Bool.false_eq_true, if_false, hscan]

/-- C9, counterexample.  A configuration-loading exception is caught and
formatted as `"Error fetching work context: boom"`, which is not of the
form `"Error: ..."` the claim requires for every exception. -/
theorem claim9_counterexample :
    fetch_context (fun _ => none) (.error "boom".data) "work".data =
      "Error fetching work context: boom".data ∧
    ¬ ∃ tail,
      fetch_context (fun _ => none) (.error "boom".data) "work".data =
        "Error: ".data ++ tail := by
  constructor
  · rfl
  · rintro ⟨tail, h⟩
    rw [show fetch_context (fun _ => none) (.error "boom".data)
        "work".data = "Error fetching work context: boom".data from rfl] at h
    have h5 : ("Error fetching work context: boom".data)[5]? =
        ("Error: ".data ++ tail)[5]? := congrArg (fun l => l[5]?) h
    rw [List.getElem?_append_left
      (show (5 : Nat) < ("Error: ".data).length by decide)] at h5
    exact absurd h5 (by decide)

/-- C9, witness: the amended theorem applied to a concrete valid
configuration (an existing, directory vault with no files). -/
theorem claim9_witness :
    (∃ v res, (.ok (Vault.mk "/v".data true true [] id) :
        Except (List Char) Vault) = .ok v ∧
      v.vexists = true ∧ v.isDir = true ∧
      (find_matching_files (fun _ => none) v.entries
        [("context".data, .str "work".data)] [] false).2 = .ok res ∧
      fetch_context (fun _ => none)
        (.ok (Vault.mk "/v".data true true [] id)) "work".data =
          concatenate_files v.resolve res) ∨
    (∃ tail, fetch_context (fun _ => none)
        (.ok (Vault.mk "/v".data true true [] id)) "work".data =
          "Error".data ++ tail) :=
  claim9_fetch_context_amended (fun _ => none)
    (.ok (Vault.mk "/v".data true true [] id)) "work".data

/-! ## Claim C3 -/

/-- `wsRun` across an all-whitespace prefix. -/
lemma wsRun_append (w t : List Char) (hw : ∀ c ∈ w, isPySpace c = true) :
    wsRun (w ++ t) = w.length + wsRun t := by
  induction w with
  | nil => simp
  | cons c cs ih =>
    have hc : isPySpace c = true := hw c (List.mem_cons_self c cs)
    have ih2 := ih (fun d hd => hw d (List.mem_cons_of_mem c hd))
    rw [List.cons_append, wsRun, if_pos hc, ih2]
    simp only [List.length_cons]
    omega

/-- Everything below the whitespace run is whitespace. -/
lemma take_wsRun_space (l : List Char) :
    ∀ j, j ≤ wsRun l → ∀ c ∈ l.take j, isPySpace c = true := by
  induction l with
  | nil => intro j _ c hc; simp at hc
  | cons d ds ih =>
    intro j hj c hc
    cases j with
    | zero => simp at hc
    | succ j2 =>
      rw [wsRun] at hj
      by_cases hd : isPySpace d = true
      · rw [if_pos hd] at hj
        rw [List.take_succ_cons] at hc
        rcases List.mem_cons.mp hc with rfl | hc2
        · exact hd
        · exact ih j2 (by omega) c hc2
      · rw [if_neg hd] at hj
        omega

/-- Membership in the `\s*`-candidate list. -/
lemma mem_nlCands (s : List Char) (p j : Nat) :
    j ∈ nlCands s p ↔ j < wsRun (s.drop p) ∧ s[p + j]? = some '\n' := by
  simp [nlCands, List.mem_reverse, List.mem_filter, List.mem_range]

/-- `findSome?` succeeds when some member succeeds. -/
lemma findSome?_isSome_of_mem {α β : Type} (f : α → Option β) (l : List α)
    (a : α) (ha : a ∈ l) (hf : (f a).isSome = true) :
    (l.findSome? f).isSome = true := by
  cases hfs : l.findSome? f with
  | none =>
    rw [List.findSome?_eq_none_iff] at hfs
    rw [hfs a ha] at hf
    simp at hf
  | some b => rfl

/-- Peeling one known character off a `drop`. -/
lemma drop_succ_of_getElem? (s : List Char) (n m : Nat) (c : Char)
    (h : s[n]? = some c) (hm : m = n + 1) :
    s.drop n = c :: s.drop m := by
  subst hm
  obtain ⟨hlt, hc⟩ := List.getElem?_eq_some_iff.mp h
  rw [List.drop_eq_getElem_cons hlt, hc]

/-- The closing tail `\n---\s*\n` matches at `q` whenever the remaining text
has the whitespace-tolerant closing shape there. -/
lemma closeAt_isSome_of_drop (s : List Char) (q : Nat) (w2 rest : List Char)
    (hw2 : ∀ c ∈ w2, isPySpace c = true)
    (hd : s.drop q = '\n' :: '-' :: '-' :: '-' :: (w2 ++ '\n' :: rest)) :
    (closeAt s q).isSome = true := by
  have g0 : s[q]? = some '\n' := by
    have h := List.getElem?_drop s q 0
    rw [hd] at h
    simpa using h.symm
  have g1 : s[q + 1]? = some '-' := by
    have h := List.getElem?_drop s q 1
    rw [hd] at h
    simpa using h.symm
  have g2 : s[q + 2]? = some '-' := by
    have h := List.getElem?_drop s q 2
    rw [hd] at h
    simpa using h.symm
  have g3 : s[q + 3]? = some '-' := by
    have h := List.getElem?_drop s q 3
    rw [hd] at h
    simpa using h.symm
  have hd4 : s.drop (q + 4) = w2 ++ '\n' :: rest := by
    have h := congrArg (List.drop 4) hd
    rw [List.drop_drop] at h
    exact h
  have hk : w2.length ∈ nlCands s (q + 4) := by
    rw [mem_nlCands]
    refine ⟨?_, ?_⟩
    · rw [hd4, wsRun_append w2 _ hw2]
      have hnlr : wsRun ('\n' :: rest) = wsRun rest + 1 := rfl
      omega
    · rw [← List.getElem?_drop, hd4,
        List.getElem?_append_right (le_refl w2.length), Nat.sub_self]
      simp
  rw [closeAt, if_pos ⟨g0, g1, g2, g3⟩]
  cases hnc : nlCands s (q + 4) with
  | nil => rw [hnc] at hk; simp at hk
  | cons k ks => rfl

/-- Every whitespace-tolerant header shape is recognized by the pattern. -/
lemma reMatch_isSome_of_shape (s : List Char) (h : HeaderShape s) :
    (reMatch s).isSome = true := by
  obtain ⟨w1, body, w2, rest, hw1, hw2, hs⟩ := h
  have h0 : s[0]? = some '-' := by rw [hs]; simp
  have h1 : s[1]? = some '-' := by rw [hs]; simp
  have h2 : s[2]? = some '-' := by rw [hs]; simp
  have hd3 : s.drop 3 =
      w1 ++ '\n' :: (body ++ '\n' :: '-' :: '-' :: '-' ::
        (w2 ++ '\n' :: rest)) := by rw [hs]; rfl
  have hd4 : s.drop (3 + w1.length) =
      '\n' :: (body ++ '\n' :: '-' :: '-' :: '-' ::
        (w2 ++ '\n' :: rest)) := by
    have h := congrArg (List.drop w1.length) hd3
    rw [List.drop_drop] at h
    exact h.trans (List.drop_left _ _)
  have hd5 : s.drop (3 + w1.length + 1) =
      body ++ '\n' :: '-' :: '-' :: '-' :: (w2 ++ '\n' :: rest) := by
    have h := congrArg (List.drop 1) hd4
    rw [List.drop_drop] at h
    exact h
  have hq : s.drop (3 + w1.length + 1 + body.length) =
      '\n' :: '-' :: '-' :: '-' :: (w2 ++ '\n' :: rest) := by
    have h := congrArg (List.drop body.length) hd5
    rw [List.drop_drop] at h
    exact h.trans (List.drop_left _ _)
  rw [reMatch, if_pos ⟨h0, h1, h2⟩]
  apply findSome?_isSome_of_mem _ _ w1.length
  · rw [mem_nlCands]
    refine ⟨?_, ?_⟩
    · rw [hd3, wsRun_append w1 _ hw1]
      have hnlr : wsRun ('\n' :: (body ++ '\n' :: '-' :: '-' :: '-' ::
          (w2 ++ '\n' :: rest))) =
          wsRun (body ++ '\n' :: '-' :: '-' :: '-' ::
            (w2 ++ '\n' :: rest)) + 1 := rfl
      omega
    · rw [← List.getElem?_drop, hd3,
        List.getElem?_append_right (le_refl w1.length), Nat.sub_self]
      simp
  · have hfc : (findClose s (3 + w1.length + 1)).isSome = true := by
      rw [findClose]
      apply findSome?_isSome_of_mem _ _ body.length
      · rw [List.mem_range]
        have hl := congrArg List.length hq
        rw [List.length_drop] at hl
        simp [List.length_append] at hl
        omega
      · have hcl := closeAt_isSome_of_drop s
          (3 + w1.length + 1 + body.length) w2 rest hw2 hq
        obtain ⟨e, he⟩ := Option.isSome_iff_exists.mp hcl
        rw [he]
        rfl
    obtain ⟨qe, hqe⟩ := Option.isSome_iff_exists.mp hfc
    rw [hqe]
    rfl

/-- Everything the pattern recognizes has the whitespace-tolerant header
shape. -/
lemma shape_of_reMatch (s : List Char)
    (h : (reMatch s).isSome = true) : HeaderShape s := by
  rw [reMatch] at h
  by_cases ha : s[0]? = some '-' ∧ s[1]? = some '-' ∧ s[2]? = some '-'
  case neg => rw [if_neg ha] at h; simp at h
  case pos =>
  rw [if_pos ha] at h
  obtain ⟨y, hy⟩ := Option.isSome_iff_exists.mp h
  obtain ⟨j, hjmem, hjf⟩ := List.exists_of_findSome?_eq_some hy
  rw [mem_nlCands] at hjmem
  obtain ⟨hjlt, hjnl⟩ := hjmem
  obtain ⟨qe, hqe, _⟩ := Option.map_eq_some'.mp hjf
  rw [findClose] at hqe
  obtain ⟨b, _, hbf⟩ := List.exists_of_findSome?_eq_some hqe
  obtain ⟨e, hclose, _⟩ := Option.map_eq_some'.mp hbf
  rw [closeAt] at hclose
  by_cases hg : s[3 + j + 1 + b]? = some '\n' ∧
      s[3 + j + 1 + b + 1]? = some '-' ∧
      s[3 + j + 1 + b + 2]? = some '-' ∧ s[3 + j + 1 + b + 3]? = some '-'
  case neg => rw [if_neg hg] at hclose; simp at hclose
  case pos =>
  rw [if_pos hg] at hclose
  cases hnc : nlCands s (3 + j + 1 + b + 4) with
  | nil => rw [hnc] at hclose; simp at hclose
  | cons k ks =>
  have hkmem : k ∈ nlCands s (3 + j + 1 + b + 4) := by
    rw [hnc]; exact List.mem_cons_self k ks
  rw [mem_nlCands] at hkmem
  obtain ⟨hklt, hknl⟩ := hkmem
  obtain ⟨h0, h1, h2⟩ := ha
  obtain ⟨g0, g1, g2, g3⟩ := hg
  refine ⟨(s.drop 3).take j, (s.drop (3 + j + 1)).take b,
    (s.drop (3 + j + 1 + b + 4)).take k, s.drop (3 + j + 1 + b + 4 + k + 1),
    take_wsRun_space (s.drop 3) j hjlt.le,
    take_wsRun_space (s.drop (3 + j + 1 + b + 4)) k hklt.le, ?_⟩
  have e0 : s = '-' :: s.drop 1 := by
    have := drop_succ_of_getElem? s 0 1 '-' h0 rfl
    rwa [List.drop_zero] at this
  have e1 : s.drop 1 = '-' :: s.drop 2 :=
    drop_succ_of_getElem? s 1 2 '-' h1 rfl
  have e2 : s.drop 2 = '-' :: s.drop 3 :=
    drop_succ_of_getElem? s 2 3 '-' h2 rfl
  have t1 : s.drop 3 = (s.drop 3).take j ++ (s.drop 3).drop j :=
    (List.take_append_drop j (s.drop 3)).symm
  have t2 : (s.drop 3).drop j = s.drop (3 + j) := by rw [List.drop_drop]
  have t3 : s.drop (3 + j) = '\n' :: s.drop (3 + j + 1) :=
    drop_succ_of_getElem? s (3 + j) (3 + j + 1) '\n' hjnl rfl
  have t4 : s.drop (3 + j + 1) =
      (s.drop (3 + j + 1)).take b ++ (s.drop (3 + j + 1)).drop b :=
    (List.take_append_drop b (s.drop (3 + j + 1))).symm
  have t5 : (s.drop (3 + j + 1)).drop b = s.drop (3 + j + 1 + b) := by
    rw [List.drop_drop]
  have t6 : s.drop (3 + j + 1 + b) = '\n' :: s.drop (3 + j + 1 + b + 1) :=
    drop_succ_of_getElem? s _ _ '\n' g0 rfl
  have t7 : s.drop (3 + j + 1 + b + 1) =
      '-' :: s.drop (3 + j + 1 + b + 2) :=
    drop_succ_of_getElem? s _ _ '-' g1 (by omega)
  have t8 : s.drop (3 + j + 1 + b + 2) =
      '-' :: s.drop (3 + j + 1 + b + 3) :=
    drop_succ_of_getElem? s _ _ '-' g2 (by omega)
  have t9 : s.drop (3 + j + 1 + b + 3) =
      '-' :: s.drop (3 + j + 1 + b + 4) :=
    drop_succ_of_getElem? s _ _ '-' g3 (by omega)
  have t10 : s.drop (3 + j + 1 + b + 4) =
      (s.drop (3 + j + 1 + b + 4)).take k ++
        (s.drop (3 + j + 1 + b + 4)).drop k :=
    (List.take_append_drop k (s.drop (3 + j + 1 + b + 4))).symm
  have t11 : (s.drop (3 + j + 1 + b + 4)).drop k =
      s.drop (3 + j + 1 + b + 4 + k) := by rw [List.drop_drop]
  have t12 : s.drop (3 + j + 1 + b + 4 + k) =
      '\n' :: s.drop (3 + j + 1 + b + 4 + k + 1) :=
    drop_succ_of_getElem? s _ _ '\n' hknl rfl
  conv_lhs => rw [e0, e1, e2, t1, t2, t3]
  conv_lhs =>
    rw [t4, t5, t6, t7, t8, t9]
  conv_lhs => rw [t10, t11, t12]

/-- C3, counterexample.  The document `--- \na: b\n---\nbody` (a space after
the opening hyphens) is recognized by the extractor — the regex's `\s*`
tolerates trailing whitespace on the delimiter lines — although its
opening line is not exactly three hyphens, so the claim's strict shape
fails and the claim's required result (empty mapping, input unchanged)
does not hold: the remainder is `body`, not the whole input. -/
theorem claim3_counterexample :
    reMatch "--- \na: b\n---\nbody".data = some ("a: b".data, 14) ∧
    ¬ StrictHeaderShape "--- \na: b\n---\nbody".data ∧
    (extract_frontmatter (fun _ => some (Val.map []))
        "--- \na: b\n---\nbody".data).2 = "body".data := by
  refine ⟨by decide, ?_, rfl⟩
  rintro ⟨body, rest, h⟩
  rw [List.append_assoc, List.append_assoc] at h
  have h3 : ("--- \na: b\n---\nbody".data)[3]? =
      ("---\n".data ++ (body ++ ("\n---\n".data ++ rest)))[3]? :=
    congrArg (fun l => l[3]?) h
  rw [List.getElem?_append_left
    (show (3 : Nat) < ("---\n".data).length by decide)] at h3
  exact absurd h3 (by decide)

/-- C3, amended.  The Header Extractor recognizes a header region iff the
text starts, at position 0, with three hyphens followed by optional
whitespace (possibly spanning blank lines) and a newline, then any text,
then a newline, three hyphens, optional whitespace and a newline; and for
every input lacking such an opening delimiter at position 0 it returns
(empty mapping, the input unchanged). -/
theorem claim3_recognition_amended :
    ∀ (parse : List Char → Option Val) (s : List Char),
      ((reMatch s).isSome = true ↔ HeaderShape s) ∧
      (¬ OpenShape s →
        extract_frontmatter parse s = (Val.map [], s)) := by
  intro parse s
  constructor
  · exact ⟨shape_of_reMatch s, reMatch_isSome_of_shape s⟩
  · intro hno
    cases hr : reMatch s with
    | none => simp [extract_frontmatter, hr]
    | some y =>
      exfalso
      apply hno
      obtain ⟨w1, body, w2, rest, hw1, _, hs⟩ :=
        shape_of_reMatch s (by rw [hr]; rfl)
      exact ⟨w1, body ++ '\n' :: '-' :: '-' :: '-' :: (w2 ++ '\n' :: rest),
        hw1, hs⟩

/-- C3, witness: the recognition equivalence at a concrete well-formed
header, and the unchanged-result clause at a concrete headerless input. -/
theorem claim3_witness :
    HeaderShape "---\na: 1\n---\nrest".data ∧
    extract_frontmatter (fun _ => none) "no header".data =
      (Val.map [], "no header".data) :=
  ⟨(claim3_recognition_amended (fun _ => none)
      "---\na: 1\n---\nrest".data).1.mp (by decide),
   (claim3_recognition_amended (fun _ => none) "no header".data).2
     (by
       rintro ⟨w1, rest, _, h⟩
       have h0 : some 'n' = some '-' := congrArg (fun l => l[0]?) h
       exact absurd h0 (by decide))⟩
